import Mathlib

/-!
Shallow embedding of the search subsystem of the Historify repository
(file src/services/search.js, class SearchService) together with proofs
about the claims of its specification.

Conventions of the embedding:
* JavaScript strings are Lean strings restricted to their character lists
  (`String.data`); JS `String.prototype` helpers (`toLowerCase`, `includes`,
  `startsWith`, `endsWith`, `slice`) are given explicit list-based models.
* A JS `Set` is modelled as a duplicate-free insertion-ordered list; only
  membership and size are ever consumed downstream, which the list preserves.
* A JS `Map` (the inverted index) is modelled as an insertion-ordered
  association list.
* JS numbers used as counts/offsets are `Nat`, timestamps are `Int`, and the
  floating-point relevance score is modelled over `ℝ` with `Real.log` in
  place of `Math.log`.
* The mutable `this.searchIndex` is passed explicitly: `buildIndex` takes the
  previous index state and returns the next one (the source's
  `searchIndex.clear()` makes the result independent of the previous state),
  and the consumers take the index as an argument.
* The current clock (`new Date()` default upper bound of the date filter) is
  an explicit `now : Int` argument.
-/

namespace SearchService

/-- Stop-word set of the `SearchService` constructor (`this.stopWords`). -/
def stopWords : List String :=
  ["the", "a", "an", "and", "or", "but", "in", "on", "at", "to", "for", "of", "with", "by",
   "is", "are", "was", "were", "be", "been", "being", "have", "has", "had", "do", "does", "did",
   "will", "would", "could", "should", "may", "might", "can", "must", "shall"]

/-- A character matched by the JS regex class `\w` (ASCII letters, digits, underscore). -/
def isWordChar (c : Char) : Bool := c.isAlphanum || c = '_'

/-- A character matched by the JS regex class `\s` (whitespace). -/
def isSpaceChar (c : Char) : Bool := c.isWhitespace

/-- Helper for `splitWs`: accumulates the current piece (reversed). -/
def splitWsAux : List Char → List Char → List (List Char)
  | [], acc => [acc.reverse]
  | c :: cs, acc =>
    if isSpaceChar c then acc.reverse :: splitWsAux cs [] else splitWsAux cs (c :: acc)

/-- Model of `split(/\s+/)`: split at whitespace characters.  Runs of
whitespace produce empty pieces here where the JS regex split collapses them,
but every empty piece is removed by the length filter of `tokenize`, so the
two agree after filtering. -/
def splitWs (l : List Char) : List (List Char) := splitWsAux l []

/-- Model of `String.prototype.toLowerCase` (ASCII case mapping). -/
def strToLower (s : String) : String := String.mk (s.data.map Char.toLower)

/-- Does the first list start with the second one (JS `startsWith` on lists)? -/
def listStartsWith : List Char → List Char → Bool
  | _, [] => true
  | [], _ :: _ => false
  | c :: cs, p :: ps => c = p && listStartsWith cs ps

/-- Does the first list contain the second as a contiguous sublist? -/
def listHasSub : List Char → List Char → Bool
  | [], pat => pat.isEmpty
  | c :: cs, pat => listStartsWith (c :: cs) pat || listHasSub cs pat

/-- Model of `String.prototype.includes`: `strContains s pat` iff `pat`
occurs verbatim inside `s`. -/
def strContains (s pat : String) : Bool := listHasSub s.data pat.data

/-- Model of `String.prototype.startsWith`. -/
def strStartsWith (s pat : String) : Bool := listStartsWith s.data pat.data

/-- Model of `String.prototype.endsWith`. -/
def strEndsWith (s pat : String) : Bool := listStartsWith s.data.reverse pat.data.reverse

/-- Ordered suffix list of `stemWord`. -/
def suffixes : List String := ["ing", "ed", "er", "est", "ly", "tion", "sion", "ness", "ment"]

/-- Model of `stemWord` (search.js lines 50-61): strip the first suffix of the list
that the word ends with, provided `word.length > suffix.length + 2`
(`word.slice(0, -suffix.length)` keeps the first `length - suffix.length`
characters); otherwise return the word unchanged. -/
def stemWord (word : String) : String :=
  match suffixes.find? (fun suf => strEndsWith word suf && decide (suf.length + 2 < word.length)) with
  | some suf => String.mk (word.data.take (word.length - suf.length))
  | none => word

/-- Model of `tokenize` (search.js lines 36-45): lowercase, replace every character
that is neither a word character nor whitespace by a space, split on
whitespace, keep tokens of length `> 2` that are not stop words, then stem.
A null/undefined argument of the JS function is the empty string here (both
yield the empty token list). -/
def tokenize (text : String) : List String :=
  let lowered := text.data.map Char.toLower
  let replaced := lowered.map (fun c => if isWordChar c || isSpaceChar c then c else ' ')
  (((splitWs replaced).map String.mk).filter
    (fun token => decide (2 < token.length) && !(stopWords.contains token))).map stemWord

/-- The optional `metadata` bag of a document (§3 of the data model). -/
structure Metadata where
  fileType : Option String
  fileSize : Option Nat
  source : Option String
deriving DecidableEq

/-- A document record as consumed by the search service. `uploadDate` is the
timestamp value that `new Date(doc.uploadDate)` compares by. -/
structure Doc where
  documentId : String
  fileName : String
  ocrText : String
  uploadDate : Int
  metadata : Option Metadata
  tags : List String
deriving DecidableEq

/-- The combined searchable text of a document: `doc.ocrText + ' ' + doc.fileName`. -/
def combinedText (doc : Doc) : String := doc.ocrText ++ " " ++ doc.fileName

/-- The inverted index `this.searchIndex`: a `Map` from term to the set of
document ids, modelled as an insertion-ordered association list whose value
lists are duplicate-free. -/
def Index := List (String × List String)

/-- Index lookup: the posting list of a term, empty when the term is absent. -/
def indexLookup (idx : Index) (term : String) : List String :=
  match idx with
  | [] => []
  | (t, ids) :: rest => if t = term then ids else indexLookup rest term

/-- Register one document id under one term
(`searchIndex.get(token).add(doc.documentId)`, creating the entry first when
absent). `Set.add` is modelled by appending when not already present. -/
def addPosting (idx : Index) (term docId : String) : Index :=
  match idx with
  | [] => [(term, [docId])]
  | (t, ids) :: rest =>
    if t = term then (t, if ids.contains docId then ids else ids ++ [docId]) :: rest
    else (t, ids) :: addPosting rest term docId

/-- Model of `buildIndex` (search.js lines 19-31).  The source first performs
`this.searchIndex.clear()` and then registers every token of every
document's combined text, so the resulting state ignores the previous index
state entirely; the explicit `prevIndex` argument records that. -/
def buildIndex (prevIndex : Index) (documents : List Doc) : Index :=
  documents.foldl
    (fun idx doc => (tokenize (combinedText doc)).foldl
      (fun idx token => addPosting idx token doc.documentId) idx)
    []

/-- The set of matching document ids of `standardSearch`: starting from the
empty set, add every id of every query token's posting list (set union). -/
def unionPostings (idx : Index) (tokens : List String) : List String :=
  tokens.foldl (fun acc token => acc ++ (indexLookup idx token).filter (fun i => !acc.contains i)) []

/-- Model of `standardSearch` (search.js lines 119-134): tokenize the query; with no
query tokens return `documents` unchanged; otherwise keep the documents whose
id lies in some query token's posting list. -/
def standardSearch (idx : Index) (query : String) (documents : List Doc) : List Doc :=
  let queryTokens := tokenize query
  if queryTokens = [] then documents
  else
    let matchingDocIds := unionPostings idx queryTokens
    documents.filter (fun doc => matchingDocIds.contains doc.documentId)

/-- Model of `phraseSearch` (search.js lines 139-146): keep the documents whose
lowercased combined text contains the lowercased query verbatim. -/
def phraseSearch (query : String) (documents : List Doc) : List Doc :=
  let normalizedQuery := strToLower query
  documents.filter (fun doc => strContains (strToLower (combinedText doc)) normalizedQuery)

/-- Model of `editDistance` (search.js lines 169-195).  The source fills the classical
Levenshtein dynamic-programming matrix; this is the recurrence that matrix
tabulates (equal heads cost 0, otherwise 1 + min of substitution, insertion,
deletion), expressed recursively. -/
def levenshtein : List Char → List Char → Nat
  | [], ys => ys.length
  | x :: xs, [] => (x :: xs).length
  | x :: xs, y :: ys =>
    if x = y then levenshtein xs ys
    else 1 + min (levenshtein xs ys) (min (levenshtein (x :: xs) ys) (levenshtein xs (y :: ys)))
termination_by xs ys => xs.length + ys.length

/-- Model of `editDistance` on strings. -/
def editDistance (str1 str2 : String) : Nat := levenshtein str1.data str2.data

/-- Model of `fuzzySearch` (search.js lines 151-164): a document matches iff some
query token is within edit distance 2 (`threshold`) of some document token. -/
def fuzzySearch (query : String) (documents : List Doc) : List Doc :=
  let queryTokens := tokenize query
  documents.filter (fun doc =>
    let docTokens := tokenize (combinedText doc)
    queryTokens.any (fun queryToken =>
      docTokens.any (fun docToken => editDistance queryToken docToken ≤ 2)))

/-- The `filters` option bag (search.js lines 200-249).  Absent JS fields are
`none` / `[]`.  (JS truthiness makes `minSize: 0` or an empty `dateFrom`
string behave like an absent field; the model expresses presence directly
through `Option`.) -/
structure Filters where
  dateFrom : Option Int
  dateTo : Option Int
  fileTypes : List String
  sources : List String
  tags : List String
  minSize : Option Nat
  maxSize : Option Nat
deriving DecidableEq

/-- The empty filter bag `{}` (every filter inactive). -/
def Filters.nofilter : Filters := ⟨none, none, [], [], [], none, none⟩

/-- Timestamp of `new Date('1900-01-01')`, the default lower date bound. -/
def date1900 : Int := -2208988800000

/-- Model of `applyFilters` (search.js lines 200-249): five independent filter stages,
each active only when its options are present.  `now` is the clock value of
the `new Date()` default upper date bound. -/
def applyFilters (now : Int) (results : List Doc) (filters : Filters) : List Doc :=
  let f1 :=
    if filters.dateFrom.isSome || filters.dateTo.isSome then
      results.filter (fun doc =>
        decide (filters.dateFrom.getD date1900 ≤ doc.uploadDate) &&
        decide (doc.uploadDate ≤ filters.dateTo.getD now))
    else results
  let f2 :=
    if !filters.fileTypes.isEmpty then
      f1.filter (fun doc => filters.fileTypes.any (fun ty =>
        (match doc.metadata with
         | some m => match m.fileType with
           | some ft => strContains ft ty
           | none => false
         | none => false) || strContains (strToLower doc.fileName) ty))
    else f1
  let f3 :=
    if !filters.sources.isEmpty then
      f2.filter (fun doc =>
        match doc.metadata with
        | some m => match m.source with
          | some s => filters.sources.contains s
          | none => false
        | none => false)
    else f2
  let f4 :=
    if !filters.tags.isEmpty then
      f3.filter (fun doc => doc.tags.any (fun tag => filters.tags.contains tag))
    else f3
  let f5 :=
    if filters.minSize.isSome || filters.maxSize.isSome then
      f4.filter (fun doc =>
        let size := (doc.metadata.bind Metadata.fileSize).getD 0
        decide (filters.minSize.getD 0 ≤ size) &&
        (match filters.maxSize with
         | some mx => decide (size ≤ mx)
         | none => true))
    else f4
  f5

/-- Model of `getDocumentFrequency` (search.js lines 297-302): how many documents of
the collection contain the term among their tokens. -/
def getDocumentFrequency (term : String) (documents : List Doc) : Nat :=
  (documents.filter (fun doc => (tokenize (combinedText doc)).contains term)).length

/-- Model of `calculateRelevance` (search.js lines 254-292): TF-IDF base score over
the query tokens, plus `0.5` per query token occurring among the filename
tokens, plus a flat `1.0` exact-phrase boost; `0` when the query or the
document tokenizes to nothing.  `Math.log` is the natural logarithm
(`Real.log`). -/
noncomputable def calculateRelevance (query : String) (document : Doc) (allDocuments : List Doc) : ℝ :=
  let queryTokens := tokenize query
  let docTokens := tokenize (combinedText document)
  if queryTokens.isEmpty || docTokens.isEmpty then 0
  else
    let tfidf := (queryTokens.map (fun queryToken =>
      ((docTokens.count queryToken : ℝ) / (docTokens.length : ℝ)) *
        Real.log ((allDocuments.length : ℝ) /
          ((getDocumentFrequency queryToken allDocuments : ℝ) + 1)))).sum
    let filenameTokens := tokenize document.fileName
    let filenameMatches :=
      (queryTokens.filter (fun token => filenameTokens.contains token)).length
    let phraseBoost : ℝ :=
      if strContains (strToLower (combinedText document)) (strToLower query) then 1 else 0
    tfidf + (filenameMatches : ℝ) * 0.5 + phraseBoost

/-- A search result: a document together with its attached `relevanceScore`
(`{...result, relevanceScore}`). -/
structure ScoredDoc where
  doc : Doc
  relevanceScore : ℝ

/-- The recognized `sortBy` option values. -/
inductive SortBy where
  | relevance
  | date
  | name
  | size
deriving DecidableEq

/-- The recognized `sortOrder` option values. -/
inductive SortOrder where
  | asc
  | desc
deriving DecidableEq

/-- The ascending comparison key of `sortResults` for each `sortBy` value
(missing relevance/size treated as 0, which the model's total fields already
express; `localeCompare` is modelled as lexicographic string order). -/
def keyLe (sortBy : SortBy) (a b : ScoredDoc) : Prop :=
  match sortBy with
  | .relevance => a.relevanceScore ≤ b.relevanceScore
  | .date => a.doc.uploadDate ≤ b.doc.uploadDate
  | .name => a.doc.fileName ≤ b.doc.fileName
  | .size => (a.doc.metadata.bind Metadata.fileSize).getD 0 ≤ (b.doc.metadata.bind Metadata.fileSize).getD 0

/-- The sort relation of `sortResults`: the comparator is multiplied by `-1`
for descending order, which flips the comparison. -/
def sortRel (sortBy : SortBy) (sortOrder : SortOrder) (a b : ScoredDoc) : Prop :=
  match sortOrder with
  | .asc => keyLe sortBy a b
  | .desc => keyLe sortBy b a

noncomputable instance sortRelDecidable (sortBy : SortBy) (sortOrder : SortOrder) :
    DecidableRel (sortRel sortBy sortOrder) :=
  fun _ _ => Classical.propDecidable _

/-- Model of `sortResults` (search.js lines 307-332): stable sort of the results under
the comparator; modelled as insertion sort with respect to `sortRel`. -/
noncomputable def sortResults (results : List ScoredDoc) (sortBy : SortBy) (sortOrder : SortOrder) :
    List ScoredDoc :=
  List.insertionSort (sortRel sortBy sortOrder) results

/-- The `options` argument of `search` with its defaults. -/
structure SearchOptions where
  filters : Filters := Filters.nofilter
  sortBy : SortBy := .relevance
  sortOrder : SortOrder := .desc
  limit : Nat := 50
  offset : Nat := 0
  fuzzy : Bool := false
  exactPhrase : Bool := false

/-- The `pagination` field of the return value of `search`. -/
structure Pagination where
  limit : Nat
  offset : Nat
  hasMore : Bool

/-- The return value of `search`. -/
structure SearchResponse where
  results : List ScoredDoc
  total : Nat
  query : String
  filters : Filters
  pagination : Pagination

/-- The candidate-selection step of `search` (lines 79-85): `exactPhrase`
wins over `fuzzy`, which wins over standard search. -/
def selectStrategy (idx : Index) (query : String) (documents : List Doc)
    (options : SearchOptions) : List Doc :=
  if options.exactPhrase then phraseSearch query documents
  else if options.fuzzy then fuzzySearch query documents
  else standardSearch idx query documents

/-- Model of `search` (search.js lines 66-114): select candidates, filter, attach
relevance scores, sort, then paginate by `slice(offset, offset + limit)`.
`total` is the pre-pagination length and `hasMore = offset + limit < total`. -/
noncomputable def search (idx : Index) (query : String) (documents : List Doc)
    (options : SearchOptions) (now : Int) : SearchResponse :=
  let candidates := selectStrategy idx query documents options
  let filtered := applyFilters now candidates options.filters
  let scored := filtered.map (fun result =>
    ⟨result, calculateRelevance query result documents⟩)
  let sorted := sortResults scored options.sortBy options.sortOrder
  let total := sorted.length
  let page := (sorted.drop options.offset).take options.limit
  ⟨page, total, query, options.filters,
    ⟨options.limit, options.offset, decide (options.offset + options.limit < total)⟩⟩

/-- One step of building the suggestion set: add the candidate when it starts
with the normalized query and the set has not reached `limit * 2` entries
(`Set.add` deduplicates). -/
def addSuggestion (normalizedQuery : String) (limit : Nat) (acc : List String)
    (candidate : String) : List String :=
  if strStartsWith candidate normalizedQuery && decide (acc.length < limit * 2) then
    (if acc.contains candidate then acc else acc ++ [candidate])
  else acc

/-- The words the suggestion engine extracts from a document's raw combined
text: the JS regex `\b\w{3,}\b` over the lowercased content, i.e. the maximal
runs of word characters of length at least 3. -/
def contentWords (doc : Doc) : List String :=
  (((strToLower (combinedText doc)).data.splitOnP (fun c => !isWordChar c)).map String.mk).filter
    (fun w => decide (3 ≤ w.length))

/-- Model of `getSuggestions` (search.js lines 337-365): empty for queries shorter
than 2 characters; otherwise collect index terms and content words starting
with the lowercased partial query (capped at `limit * 2` candidates), take
the first `limit`, and order by ascending length. -/
def getSuggestions (idx : Index) (partialQuery : String) (documents : List Doc)
    (limit : Nat) : List String :=
  if partialQuery.length < 2 then []
  else
    let normalizedQuery := strToLower partialQuery
    let fromIndex := idx.foldl (fun acc entry => addSuggestion normalizedQuery limit acc entry.1) []
    let fromDocs := documents.foldl
      (fun acc doc => (contentWords doc).foldl (addSuggestion normalizedQuery limit) acc) fromIndex
    List.insertionSort (fun a b => a.length ≤ b.length) (fromDocs.take limit)

/-! ## Helper lemmas -/

/-- Stemming never shortens a token to length 2 or below: the guard
`word.length > suffix.length + 2` keeps at least 3 characters. -/
theorem stemWord_length_gt_two (word : String) (h : 2 < word.length) :
    2 < (stemWord word).length := by
  unfold stemWord
  cases hfind : suffixes.find?
      (fun suf => strEndsWith word suf && decide (suf.length + 2 < word.length)) with
  | none => exact h
  | some suf =>
    have hp := List.find?_some hfind
    have hlen : suf.length + 2 < word.length := by
      have := (Bool.and_eq_true _ _).mp hp
      exact of_decide_eq_true this.2
    show 2 < (String.mk (word.data.take (word.length - suf.length))).length
    have hw : word.length = word.data.length := rfl
    have hs : suf.length = suf.data.length := rfl
    simp only [String.length, List.length_take]
    omega

/-- Sample document used by several witnesses. -/
def sampleDoc : Doc := ⟨"dA", "census.pdf", "hello world text", 0, none, []⟩

/-! ## C2: empty-token queries are permissive in standard search -/

/-- C2: whenever the query tokenizes to zero terms, `standardSearch` returns
the entire input document collection (all documents are candidates). -/
theorem standardSearch_empty_query_returns_all (idx : Index) (query : String)
    (documents : List Doc) (h : tokenize query = []) :
    standardSearch idx query documents = documents := by
  simp [standardSearch, h]

/-- Witness for C2: the stop-word-only query `"the of"` tokenizes to zero
terms, and standard search on it returns the whole collection. -/
theorem standardSearch_empty_query_witness :
    standardSearch (buildIndex [] [sampleDoc]) "the of" [sampleDoc] = [sampleDoc] :=
  standardSearch_empty_query_returns_all (buildIndex [] [sampleDoc]) "the of" [sampleDoc]
    (by decide)

/-! ## C3: tokens of `tokenize` -/

/-- Counterexample to C3 as stated: stop-word filtering happens before
stemming, so `tokenize "caned"` produces the token `"can"`, which belongs to
the fixed stop-word set. -/
theorem tokenize_stopword_counterexample :
    "can" ∈ tokenize "caned" ∧ "can" ∈ stopWords := by
  constructor <;> decide

/-- C3 amended: every token produced by `tokenize` has length greater
than 2 (the length filter runs before stemming and stemming keeps at least
3 characters); the stop-word part of the claim fails, see
`tokenize_stopword_counterexample`. -/
theorem tokenize_token_length_gt_two (text : String) (token : String)
    (h : token ∈ tokenize text) : 2 < token.length := by
  unfold tokenize at h
  simp only [List.mem_map, List.mem_filter] at h
  obtain ⟨word, ⟨-, hword⟩, rfl⟩ := h
  have h2 : 2 < word.length := by
    have := (Bool.and_eq_true _ _).mp hword
    exact of_decide_eq_true this.1
  exact stemWord_length_gt_two word h2

/-- Witness for the amended C3: `"walk"`, a token of `tokenize "walking"`,
has length greater than 2. -/
theorem tokenize_token_length_witness : 2 < String.length "walk" :=
  tokenize_token_length_gt_two "walking" "walk" (by decide)

/-! ## C8: rebuilding the index is idempotent -/

/-- C8: `buildIndex` starts from a cleared index regardless of the previous
state, so building twice from the same collection yields an index state under
which every standard-search query answers exactly as after a single build. -/
theorem buildIndex_idempotent_standardSearch (prev : Index) (documents : List Doc)
    (query : String) (collection : List Doc) :
    standardSearch (buildIndex (buildIndex prev documents) documents) query collection =
      standardSearch (buildIndex prev documents) query collection := rfl

/-- Membership in the accumulated union of posting lists. -/
theorem mem_unionPostings_aux (idx : Index) (tokens : List String) (acc : List String)
    (i : String) :
    (i ∈ tokens.foldl
        (fun acc token => acc ++ (indexLookup idx token).filter (fun x => !acc.contains x)) acc) ↔
      i ∈ acc ∨ ∃ t ∈ tokens, i ∈ indexLookup idx t := by
  induction tokens generalizing acc with
  | nil => simp
  | cons t ts ih =>
    simp only [List.foldl_cons, ih, List.mem_append, List.mem_filter, List.mem_cons]
    constructor
    · rintro (((h | ⟨h, -⟩) | ⟨u, hu, hi⟩))
      · exact Or.inl h
      · exact Or.inr ⟨t, Or.inl rfl, h⟩
      · exact Or.inr ⟨u, Or.inr hu, hi⟩
    · rintro (h | ⟨u, (rfl | hu), hi⟩)
      · exact Or.inl (Or.inl h)
      · by_cases hacc : i ∈ acc
        · exact Or.inl (Or.inl hacc)
        · exact Or.inl (Or.inr ⟨hi, by simpa using hacc⟩)
      · exact Or.inr ⟨u, hu, hi⟩

/-- Membership in `unionPostings` is membership in some per-term posting list. -/
theorem mem_unionPostings (idx : Index) (tokens : List String) (i : String) :
    i ∈ unionPostings idx tokens ↔ ∃ t ∈ tokens, i ∈ indexLookup idx t := by
  unfold unionPostings
  rw [mem_unionPostings_aux]
  simp

/-- Membership characterization of `standardSearch` for queries with at
least one token. -/
theorem mem_standardSearch (idx : Index) (query : String) (documents : List Doc)
    (d : Doc) (hq : tokenize query ≠ []) :
    d ∈ standardSearch idx query documents ↔
      d ∈ documents ∧ ∃ t ∈ tokenize query, d.documentId ∈ indexLookup idx t := by
  simp [standardSearch, hq, List.mem_filter, mem_unionPostings]

/-! ## C4: standard-search candidates as a union of postings -/

/-- Counterexample to C4 as stated: for the zero-token query `""` the
candidate set is the whole collection rather than the (empty) union of
postings, so adding the term `"zzz"` (absent from the index) shrinks the
candidate set from the whole collection to nothing. -/
theorem standardSearch_monotone_counterexample :
    sampleDoc ∈ standardSearch (buildIndex [] [sampleDoc]) "" [sampleDoc] ∧
      sampleDoc ∉ standardSearch (buildIndex [] [sampleDoc]) "zzz" [sampleDoc] := by
  constructor <;> decide

/-- C4 amended: restricted to queries whose tokenization is nonempty, the
standard-search candidate set over a freshly built index is exactly the union
of the per-term postings of the query tokens, and enlarging the query's token
set (adding a term) never shrinks the candidate set.  For zero-token queries
the candidate set is the entire collection, which adding a term can shrink
(see `standardSearch_monotone_counterexample`). -/
theorem standardSearch_union_monotone (prev : Index) (documents : List Doc)
    (query : String) (collection : List Doc) (hq : tokenize query ≠ []) :
    (∀ d, d ∈ standardSearch (buildIndex prev documents) query collection ↔
        d ∈ collection ∧
          ∃ t ∈ tokenize query, d.documentId ∈ indexLookup (buildIndex prev documents) t) ∧
      ∀ query2, (∀ t ∈ tokenize query, t ∈ tokenize query2) →
        ∀ d ∈ standardSearch (buildIndex prev documents) query collection,
          d ∈ standardSearch (buildIndex prev documents) query2 collection := by
  constructor
  · exact fun d => mem_standardSearch _ query collection d hq
  · intro query2 hsub d hd
    obtain ⟨t0, ht0⟩ := List.exists_mem_of_ne_nil _ hq
    have hq2 : tokenize query2 ≠ [] :=
      List.ne_nil_of_mem (hsub t0 ht0)
    rw [mem_standardSearch _ query collection d hq] at hd
    rw [mem_standardSearch _ query2 collection d hq2]
    obtain ⟨hmem, t, ht, hid⟩ := hd
    exact ⟨hmem, t, hsub t ht, hid⟩

/-- Witness for the amended C4: candidates of `"hello"` are contained in the
candidates of `"hello world"` over the index of `sampleDoc`. -/
theorem standardSearch_union_monotone_witness :
    sampleDoc ∈ standardSearch (buildIndex [] [sampleDoc]) "hello world" [sampleDoc] :=
  (standardSearch_union_monotone [] [sampleDoc] "hello" [sampleDoc] (by decide)).2
    "hello world" (by decide) sampleDoc (by decide)

/-! ## C1: sign of the relevance score -/

/-- Unfolded form of `calculateRelevance`. -/
theorem calculateRelevance_def (query : String) (document : Doc) (allDocuments : List Doc) :
    calculateRelevance query document allDocuments =
      if (tokenize query).isEmpty || (tokenize (combinedText document)).isEmpty then 0
      else
        ((tokenize query).map (fun queryToken =>
            (((tokenize (combinedText document)).count queryToken : ℝ) /
                ((tokenize (combinedText document)).length : ℝ)) *
              Real.log ((allDocuments.length : ℝ) /
                ((getDocumentFrequency queryToken allDocuments : ℝ) + 1)))).sum +
          (((tokenize query).filter
              (fun token => (tokenize document.fileName).contains token)).length : ℝ) * 0.5 +
          (if strContains (strToLower (combinedText document)) (strToLower query) then (1 : ℝ)
           else 0) := rfl

/-- First document of the negative-score counterexample. -/
def negDoc1 : Doc := ⟨"c1", "aaa", "walk", 0, none, []⟩

/-- Second document of the negative-score counterexample. -/
def negDoc2 : Doc := ⟨"c2", "bbb", "walk", 0, none, []⟩

/-- Counterexample to C1 as stated: the stemmed query `"walking"` matches a
term (`"walk"`) occurring in both of the two documents, so its idf is
`log (2/3) < 0`, and with no filename match and no exact-phrase occurrence
the final score `(1/2) * log (2/3)` is negative. -/
theorem calculateRelevance_negative_counterexample :
    calculateRelevance "walking" negDoc1 [negDoc1, negDoc2] < 0 := by
  rw [calculateRelevance_def]
  have h1 : tokenize "walking" = ["walk"] := by decide
  have h2 : tokenize (combinedText negDoc1) = ["walk", "aaa"] := by decide
  have h3 : getDocumentFrequency "walk" [negDoc1, negDoc2] = 2 := by decide
  have h4 : tokenize negDoc1.fileName = ["aaa"] := by decide
  have h5 : strContains (strToLower (combinedText negDoc1)) (strToLower "walking") = false := by
    decide
  have hcount : List.count "walk" ["walk", "aaa"] = 1 := by decide
  simp only [h1, h2, h3, h4, h5, List.isEmpty_cons, Bool.or_self, Bool.false_eq_true,
    if_false, List.map_cons, List.map_nil, List.sum_cons, List.sum_nil, hcount,
    List.length_cons, List.length_nil]
  have hflt : (["walk"].filter (fun token => (["aaa"]).contains token)) = [] := by decide
  rw [hflt]
  have hlog : Real.log ((2 : ℝ) / (2 + 1)) < 0 := by
    apply Real.log_neg <;> norm_num
  simp only [List.length_cons, List.length_nil, List.length_eq_zero]
  push_cast
  nlinarith [hlog]

/-- C1 amended: the score is `0` whenever the query or the document token
sequence is empty; the non-negativity part of the claim fails because the idf
factor can be negative (see `calculateRelevance_negative_counterexample`). -/
theorem calculateRelevance_zero_of_empty_tokens (query : String) (document : Doc)
    (allDocuments : List Doc)
    (h : tokenize query = [] ∨ tokenize (combinedText document) = []) :
    calculateRelevance query document allDocuments = 0 := by
  rw [calculateRelevance_def]
  rcases h with h | h <;> simp [h]

/-- Witness for the amended C1: the empty query yields score `0`. -/
theorem calculateRelevance_zero_witness :
    calculateRelevance "" sampleDoc [sampleDoc] = 0 :=
  calculateRelevance_zero_of_empty_tokens "" sampleDoc [sampleDoc] (Or.inl (by decide))

/-- Sorting the results permutes them. -/
theorem sortResults_perm (results : List ScoredDoc) (sortBy : SortBy) (sortOrder : SortOrder) :
    List.Perm (sortResults results sortBy sortOrder) results :=
  List.perm_insertionSort _ _

/-- A conditionally applied filter stage only removes elements. -/
theorem ifFilter_subset {α : Type} (c : Prop) [Decidable c] (p : α → Bool) (l : List α) :
    (if c then l.filter p else l) ⊆ l := by
  split_ifs
  · exact (List.filter_sublist _).subset
  · exact List.Subset.refl l

/-- Filtering only removes documents. -/
theorem applyFilters_subset (now : Int) (results : List Doc) (filters : Filters) :
    applyFilters now results filters ⊆ results := by
  intro d hd
  unfold applyFilters at hd
  split_ifs at hd <;> simp only [List.mem_filter] at hd <;> tauto

/-- Every candidate-selection strategy only selects input documents. -/
theorem selectStrategy_subset (idx : Index) (query : String) (documents : List Doc)
    (options : SearchOptions) :
    selectStrategy idx query documents options ⊆ documents := by
  intro d hd
  simp only [selectStrategy, phraseSearch, fuzzySearch, standardSearch] at hd
  split_ifs at hd
  · exact List.mem_of_mem_filter hd
  · exact List.mem_of_mem_filter hd
  · exact hd
  · exact List.mem_of_mem_filter hd

/-! ## C5: pagination invariants of `search` -/

/-- The options bag `{exactPhrase := true}` with everything else default. -/
def phraseOptions : SearchOptions := ⟨Filters.nofilter, .relevance, .desc, 50, 0, false, true⟩

/-- Options with an offset beyond the collection size. -/
def bigOffsetOptions : SearchOptions := ⟨Filters.nofilter, .relevance, .desc, 50, 5, false, false⟩

/-- Counterexample to C5 as stated: with one matching document (`total = 1`)
and `offset = 5`, the page is empty but `min(limit, total - offset)` is the
negative number `min(50, 1 - 5) = -4`, so
`results.length <= min(limit, total - offset)` fails. -/
theorem search_pagination_counterexample :
    ¬ (((search (buildIndex [] [sampleDoc]) "hello" [sampleDoc] bigOffsetOptions 0).results.length :
          ℤ) ≤
        min (bigOffsetOptions.limit : ℤ)
          (((search (buildIndex [] [sampleDoc]) "hello" [sampleDoc] bigOffsetOptions 0).total : ℤ) -
            (bigOffsetOptions.offset : ℤ))) := by
  have hstd : standardSearch (buildIndex [] [sampleDoc]) "hello" [sampleDoc] = [sampleDoc] := by
    decide
  have hstrat : selectStrategy (buildIndex [] [sampleDoc]) "hello" [sampleDoc]
      bigOffsetOptions = [sampleDoc] := by
    simp [selectStrategy, bigOffsetOptions, hstd]
  have hfilt : applyFilters 0 [sampleDoc] Filters.nofilter = [sampleDoc] := by decide
  have hopts : bigOffsetOptions.filters = Filters.nofilter := rfl
  simp only [search, hopts, hstrat, hfilt]
  simp [bigOffsetOptions, sortResults, List.insertionSort]

/-- C5 amended: whenever `offset <= total`, the page length is at most
`min(limit, total - offset)` (as integers); unconditionally, `total` is the
filtered pre-pagination count and `hasMore = (offset + limit < total)`.
For `offset > total` the bound as stated fails because `total - offset` is
negative while the page is merely empty, see
`search_pagination_counterexample`. -/
theorem search_pagination_bounds (idx : Index) (query : String) (documents : List Doc)
    (options : SearchOptions) (now : Int) :
    (options.offset ≤ (search idx query documents options now).total →
        ((search idx query documents options now).results.length : ℤ) ≤
          min (options.limit : ℤ)
            (((search idx query documents options now).total : ℤ) - (options.offset : ℤ))) ∧
      (search idx query documents options now).total =
        (applyFilters now (selectStrategy idx query documents options) options.filters).length ∧
      (search idx query documents options now).pagination.hasMore =
        decide (options.offset + options.limit < (search idx query documents options now).total) := by
  refine ⟨fun hoff => ?_, ?_, ?_⟩
  · simp only [search] at hoff ⊢
    rw [List.length_take, List.length_drop]
    push_cast [Nat.cast_sub hoff]
    omega
  · simp only [search]
    rw [(sortResults_perm _ _ _).length_eq, List.length_map]
  · simp only [search]

/-- Witness for the amended C5 at a concrete input with `offset = 0`. -/
theorem search_pagination_bounds_witness :
    (((search (buildIndex [] [sampleDoc]) "hello" [sampleDoc] phraseOptions 0).results.length :
          ℤ) ≤
        min (phraseOptions.limit : ℤ)
          (((search (buildIndex [] [sampleDoc]) "hello" [sampleDoc] phraseOptions 0).total : ℤ) -
            (phraseOptions.offset : ℤ))) ∧
      (search (buildIndex [] [sampleDoc]) "hello" [sampleDoc] phraseOptions 0).total =
        (applyFilters 0
          (selectStrategy (buildIndex [] [sampleDoc]) "hello" [sampleDoc] phraseOptions)
          phraseOptions.filters).length ∧
      (search (buildIndex [] [sampleDoc]) "hello" [sampleDoc] phraseOptions 0).pagination.hasMore =
        decide (phraseOptions.offset + phraseOptions.limit <
          (search (buildIndex [] [sampleDoc]) "hello" [sampleDoc] phraseOptions 0).total) :=
  by
  have h := search_pagination_bounds (buildIndex [] [sampleDoc]) "hello" [sampleDoc]
    phraseOptions 0
  have hoff : phraseOptions.offset ≤
      (search (buildIndex [] [sampleDoc]) "hello" [sampleDoc] phraseOptions 0).total := by
    have hz : phraseOptions.offset = 0 := rfl
    rw [hz]
    exact Nat.zero_le _
  exact ⟨h.1 hoff, h.2.1, h.2.2⟩

/-! ## C10: search results carry only input documents -/

/-- C10: every returned result is an input document extended with its
computed relevance score, regardless of strategy and options. -/
theorem search_results_from_input (idx : Index) (query : String) (documents : List Doc)
    (options : SearchOptions) (now : Int) (r : ScoredDoc)
    (h : r ∈ (search idx query documents options now).results) :
    r.doc ∈ documents ∧ r.relevanceScore = calculateRelevance query r.doc documents := by
  simp only [search] at h
  have h1 : r ∈ sortResults
      ((applyFilters now (selectStrategy idx query documents options) options.filters).map
        (fun result => ⟨result, calculateRelevance query result documents⟩))
      options.sortBy options.sortOrder :=
    List.mem_of_mem_drop (List.mem_of_mem_take h)
  have h2 := (sortResults_perm _ _ _).mem_iff.mp h1
  rw [List.mem_map] at h2
  obtain ⟨d, hd, rfl⟩ := h2
  refine ⟨selectStrategy_subset idx query documents options (applyFilters_subset _ _ _ hd), rfl⟩

/-- Witness for C10: searching `[sampleDoc]` in phrase mode for `"hello"`
returns `sampleDoc` with its computed score, and that result is an input
document carrying the computed score. -/
theorem search_results_from_input_witness :
    (⟨sampleDoc, calculateRelevance "hello" sampleDoc [sampleDoc]⟩ : ScoredDoc).doc ∈
        [sampleDoc] ∧
      (⟨sampleDoc, calculateRelevance "hello" sampleDoc [sampleDoc]⟩ : ScoredDoc).relevanceScore =
        calculateRelevance "hello"
          (⟨sampleDoc, calculateRelevance "hello" sampleDoc [sampleDoc]⟩ : ScoredDoc).doc
          [sampleDoc] :=
  search_results_from_input (buildIndex [] [sampleDoc]) "hello" [sampleDoc] phraseOptions 0
    ⟨sampleDoc, calculateRelevance "hello" sampleDoc [sampleDoc]⟩
    (by
      have hstrat : selectStrategy (buildIndex [] [sampleDoc]) "hello" [sampleDoc]
          phraseOptions = [sampleDoc] := by
        simp only [selectStrategy, phraseOptions]
        decide
      have hfilt : applyFilters 0 [sampleDoc] Filters.nofilter = [sampleDoc] := by decide
      simp only [search, phraseOptions, hstrat]
      simp only [phraseOptions] at hstrat
      simp [hstrat, hfilt, sortResults, List.insertionSort])

/-! ## C6: phrase search is a verbatim substring test -/

/-- First example document of spec §8. -/
def exampleDoc1 : Doc := ⟨"d1", "Census_1920.pdf", "Smith John factory worker", 0, none, []⟩

/-- Second example document of spec §8. -/
def exampleDoc2 : Doc := ⟨"d2", "Immigration.jpg", "Smith John laborer Ireland", 0, none, []⟩

/-- C6: a document is selected by phrase search iff the lowercased
concatenation of its `ocrText` and `fileName` contains the lowercased query
verbatim; and `search` with `exactPhrase` on the §8 example documents
returns both of them (`total = 2` and the returned documents are exactly
`d1` and `d2`). -/
theorem phraseSearch_iff_substring :
    (∀ (query : String) (documents : List Doc) (d : Doc),
        d ∈ phraseSearch query documents ↔
          d ∈ documents ∧ strContains (strToLower (combinedText d)) (strToLower query) = true) ∧
      ∀ (idx : Index) (now : Int),
        (search idx "Smith John" [exampleDoc1, exampleDoc2] phraseOptions now).total = 2 ∧
          List.Perm
            ((search idx "Smith John" [exampleDoc1, exampleDoc2] phraseOptions now).results.map
              ScoredDoc.doc)
            [exampleDoc1, exampleDoc2] := by
  constructor
  · intro query documents d
    simp [phraseSearch, List.mem_filter]
  · intro idx now
    have hstrat : selectStrategy idx "Smith John" [exampleDoc1, exampleDoc2] phraseOptions =
        [exampleDoc1, exampleDoc2] := by
      have hps : phraseSearch "Smith John" [exampleDoc1, exampleDoc2] =
          [exampleDoc1, exampleDoc2] := by decide
      simp [selectStrategy, phraseOptions, hps]
    have hfilt : applyFilters now [exampleDoc1, exampleDoc2] Filters.nofilter =
        [exampleDoc1, exampleDoc2] := by
      simp [applyFilters, Filters.nofilter]
    have hopts : phraseOptions.filters = Filters.nofilter := rfl
    have hperm : List.Perm
        (sortResults
          ([exampleDoc1, exampleDoc2].map (fun result =>
            (⟨result, calculateRelevance "Smith John" result [exampleDoc1, exampleDoc2]⟩ :
              ScoredDoc)))
          phraseOptions.sortBy phraseOptions.sortOrder)
        ([exampleDoc1, exampleDoc2].map (fun result =>
          (⟨result, calculateRelevance "Smith John" result [exampleDoc1, exampleDoc2]⟩ :
            ScoredDoc))) := sortResults_perm _ _ _
    constructor
    · simp only [search, hopts, hstrat, hfilt]
      rw [hperm.length_eq]
      rfl
    · simp only [search, hopts, hstrat, hfilt]
      have hoff : phraseOptions.offset = 0 := rfl
      have hlim : phraseOptions.limit = 50 := rfl
      rw [hoff, List.drop_zero, hlim, List.take_of_length_le (by rw [hperm.length_eq]; decide)]
      have := hperm.map ScoredDoc.doc
      simpa using this

/-! ## C7: the exact-phrase boost separates otherwise-identical documents -/

/-- First document of the C7 counterexample (contains the phrase `"of of"`). -/
def phrDoc1 : Doc := ⟨"p1", "nnn", "of of alpha beta", 0, none, []⟩

/-- Second document of the C7 counterexample (same token multiset, phrase absent). -/
def phrDoc2 : Doc := ⟨"p2", "nnn", "beta of alpha of", 0, none, []⟩

/-- Counterexample to C7 as stated: for the stop-word query `"of of"` the
query tokenizes to nothing, so both documents score a flat `0` even though
exactly one of them contains the phrase verbatim — the strict inequality
fails. -/
theorem relevance_phrase_counterexample :
    List.Perm (tokenize (combinedText phrDoc1)) (tokenize (combinedText phrDoc2)) ∧
      phrDoc1.fileName = phrDoc2.fileName ∧
      strContains (strToLower (combinedText phrDoc1)) (strToLower "of of") = true ∧
      strContains (strToLower (combinedText phrDoc2)) (strToLower "of of") = false ∧
      ¬ calculateRelevance "of of" phrDoc2 [phrDoc1, phrDoc2] <
          calculateRelevance "of of" phrDoc1 [phrDoc1, phrDoc2] := by
  have hq : tokenize "of of" = [] := by decide
  have h1 : calculateRelevance "of of" phrDoc1 [phrDoc1, phrDoc2] = 0 := by
    rw [calculateRelevance_def, hq]
    simp
  have h2 : calculateRelevance "of of" phrDoc2 [phrDoc1, phrDoc2] = 0 := by
    rw [calculateRelevance_def, hq]
    simp
  refine ⟨by decide, rfl, by decide, by decide, ?_⟩
  rw [h1, h2]
  exact lt_irrefl 0

/-- C7 amended: restricted to queries and documents with nonempty token
sequences, a document containing the exact lowercased query verbatim scores
strictly higher than a document of the same collection with the same token
multiset and the same `fileName` that does not (their TF-IDF bases and
filename boosts agree and the phrase boost adds a flat `1.0`).  Without the
nonemptiness restriction both scores can collapse to `0`, see
`relevance_phrase_counterexample`. -/
theorem relevance_phrase_strict (query : String) (d1 d2 : Doc) (allDocuments : List Doc)
    (hq : tokenize query ≠ [])
    (hd : tokenize (combinedText d1) ≠ [])
    (hperm : List.Perm (tokenize (combinedText d1)) (tokenize (combinedText d2)))
    (hname : d1.fileName = d2.fileName)
    (hmem1 : d1 ∈ allDocuments) (hmem2 : d2 ∈ allDocuments)
    (hc1 : strContains (strToLower (combinedText d1)) (strToLower query) = true)
    (hc2 : strContains (strToLower (combinedText d2)) (strToLower query) = false) :
    calculateRelevance query d2 allDocuments < calculateRelevance query d1 allDocuments := by
  have hd2 : tokenize (combinedText d2) ≠ [] := fun h => hd (List.Perm.eq_nil (h ▸ hperm))
  have he1 : (tokenize query).isEmpty = false := by
    cases h : tokenize query
    · exact absurd h hq
    · rfl
  have he2 : (tokenize (combinedText d1)).isEmpty = false := by
    cases h : tokenize (combinedText d1)
    · exact absurd h hd
    · rfl
  have he3 : (tokenize (combinedText d2)).isEmpty = false := by
    cases h : tokenize (combinedText d2)
    · exact absurd h hd2
    · rfl
  have hcount : ∀ t, (tokenize (combinedText d2)).count t = (tokenize (combinedText d1)).count t :=
    fun t => (hperm.count_eq t).symm
  have hlen : (tokenize (combinedText d2)).length = (tokenize (combinedText d1)).length :=
    hperm.length_eq.symm
  rw [calculateRelevance_def, calculateRelevance_def]
  simp only [he1, he2, he3, hc1, hc2, hcount, hlen, ← hname, Bool.or_self, Bool.or_false,
    Bool.false_or, if_true, if_false]
  norm_num

/-- Document of the C7 witness containing the phrase `"alpha beta"`. -/
def strictDoc1 : Doc := ⟨"w1", "nnn", "alpha beta", 0, none, []⟩

/-- Document of the C7 witness with the same tokens in the other order. -/
def strictDoc2 : Doc := ⟨"w2", "nnn", "beta alpha", 0, none, []⟩

/-- Witness for the amended C7 at a concrete input. -/
theorem relevance_phrase_strict_witness :
    calculateRelevance "alpha beta" strictDoc2 [strictDoc1, strictDoc2] <
      calculateRelevance "alpha beta" strictDoc1 [strictDoc1, strictDoc2] :=
  relevance_phrase_strict "alpha beta" strictDoc1 strictDoc2 [strictDoc1, strictDoc2]
    (by decide) (by decide) (by decide) rfl (by decide) (by decide) (by decide) (by decide)

/-! ## C9: suggestions -/

/-- Elements produced by folding `addSuggestion` either were already present
or start with the normalized query. -/
theorem mem_foldl_addSuggestion {α : Type} (nq : String) (limit : Nat) (f : α → String)
    (l : List α) (acc : List String) (s : String)
    (hs : s ∈ l.foldl (fun acc a => addSuggestion nq limit acc (f a)) acc) :
    s ∈ acc ∨ strStartsWith s nq = true := by
  induction l generalizing acc with
  | nil => exact Or.inl hs
  | cons a as ih =>
    rcases ih _ hs with h | h
    · simp only [addSuggestion] at h
      split_ifs at h with hcond hc2
      · exact Or.inl h
      · rcases List.mem_append.mp h with h | h
        · exact Or.inl h
        · have hstarts := ((Bool.and_eq_true _ _).mp hcond).1
          simp only [List.mem_singleton] at h
          subst h
          exact Or.inr hstarts
      · exact Or.inl h
    · exact Or.inr h

/-- Version of `mem_foldl_addSuggestion` for the nested per-document fold. -/
theorem mem_foldl_addSuggestion_docs (nq : String) (limit : Nat) (documents : List Doc)
    (acc : List String) (s : String)
    (hs : s ∈ documents.foldl
      (fun acc doc => (contentWords doc).foldl (addSuggestion nq limit) acc) acc) :
    s ∈ acc ∨ strStartsWith s nq = true := by
  induction documents generalizing acc with
  | nil => exact Or.inl hs
  | cons d ds ih =>
    rcases ih _ hs with h | h
    · exact mem_foldl_addSuggestion nq limit id (contentWords d) acc s h
    · exact Or.inr h

/-- C9: every suggestion starts with the lowercased partial query, and
partial queries shorter than 2 characters yield no suggestions. -/
theorem getSuggestions_spec (idx : Index) (partialQuery : String) (documents : List Doc)
    (limit : Nat) :
    (∀ s ∈ getSuggestions idx partialQuery documents limit,
        strStartsWith s (strToLower partialQuery) = true) ∧
      (partialQuery.length < 2 → getSuggestions idx partialQuery documents limit = []) := by
  constructor
  · intro s hs
    simp only [getSuggestions] at hs
    split_ifs at hs with hlen
    · simp at hs
    · have h1 := (List.perm_insertionSort _ _).mem_iff.mp hs
      have h2 := List.mem_of_mem_take h1
      rcases mem_foldl_addSuggestion_docs _ _ _ _ _ h2 with h | h
      · rcases mem_foldl_addSuggestion _ _ Prod.fst idx [] s h with h' | h'
        · simp at h'
        · exact h'
      · exact h
  · intro h
    unfold getSuggestions
    rw [if_pos h]

/-- Document of the C9 witness. -/
def suggDoc : Doc := ⟨"d", "xxx", "john", 0, none, []⟩

/-- Witness for C9: `"john"`, a suggestion for `"jo"`, starts with `"jo"`,
and the one-character query `"j"` yields no suggestions. -/
theorem getSuggestions_spec_witness :
    strStartsWith "john" (strToLower "jo") = true ∧
      getSuggestions [] "j" [suggDoc] 5 = [] :=
  ⟨(getSuggestions_spec [] "jo" [suggDoc] 5).1 "john" (by decide),
   (getSuggestions_spec [] "j" [suggDoc] 5).2 (by decide)⟩

end SearchService
